import Mathlib

/-!
Shallow embedding of clang lib/Sema/SemaStmtAttr.cpp: statement attribute
processing for fallthrough and loop-hint attributes, together with the
compatibility checker for loop hints.

Source locations are modelled as natural numbers, source ranges as pairs.
The C++ `int` is modelled as `Int` together with explicit truncation to the
signed 32-bit range where the source narrows (the assignment
`ValueInt = ValueAPS.getSExtValue()` at line 125 stores an `int64_t` into an
`int`).
-/

/-- The statement classes distinguished by the source (`Stmt::StmtClass`).
Only the classes the source tests for are distinguished; all remaining
statement kinds behave identically and are represented by `OtherStmtClass`. -/
inductive StmtClass where
  | NullStmtClass
  | CaseStmtClass
  | DefaultStmtClass
  | DoStmtClass
  | ForStmtClass
  | CXXForRangeStmtClass
  | WhileStmtClass
  | IfStmtClass
  | OtherStmtClass
  deriving DecidableEq

/-- `isa<SwitchCase>(St)`: a case or default label. -/
def isaSwitchCase (st : StmtClass) : Prop :=
  st = StmtClass.CaseStmtClass ∨ st = StmtClass.DefaultStmtClass

instance (st : StmtClass) : Decidable (isaSwitchCase st) := by
  unfold isaSwitchCase; infer_instance

/-- A source range, `SourceRange`: begin and end locations. -/
structure SourceRange where
  rbegin : Nat
  rend : Nat
  deriving DecidableEq

/-- `LoopHintAttr::Spelling`. -/
inductive Spelling where
  | Pragma_unroll
  | Pragma_nounroll
  | Pragma_clang_loop
  deriving DecidableEq

/-- `LoopHintAttr::OptionType`. -/
inductive OptionType where
  | Vectorize
  | VectorizeWidth
  | Interleave
  | InterleaveCount
  | Unroll
  | UnrollCount
  deriving DecidableEq

/-- The decoded loop hint, `LoopHintAttr` as built by
`LoopHintAttr::CreateImplicit(S.Context, Spelling, Option, ValueInt, A.getRange())`. -/
structure LoopHintAttr where
  spelling : Spelling
  option : OptionType
  value : Int
  range : SourceRange
  deriving DecidableEq

/-- A processed statement attribute (`Attr`): either a decoded loop hint or a
fallthrough attribute. `CheckForIncompatibleAttributes` skips everything that
is not a `LoopHintAttr`. -/
inductive Attr where
  | loopHint (lh : LoopHintAttr)
  | fallThrough (range : SourceRange)
  deriving DecidableEq

/-- The diagnostics the source can emit from the functions modelled here. -/
inductive Diag where
  | fallthroughWrongTarget (attrLoc stmtLoc : Nat)
  | fallthroughFixitInsert (loc : Nat) (text : String)
  | fallthroughOutsideSwitch (attrLoc : Nat)
  | precedesNonLoop (stmtLoc : Nat) (pragma : String)
  | invalidKeyword (valueLoc : Nat) (trueKeyword : String)
  | invalidValue (valueLoc : Nat)
  | loopCompat (loc : Nat) (isDuplicate : Bool) (prev cur : LoopHintAttr)
  deriving DecidableEq

/-- `handleFallThroughAttr` (lines 26-44). `switchStackEmpty` models
`S.getCurFunction()->SwitchStack.empty()`; `getLocForEndOfToken` models
`S.getLocForEndOfToken`; `attrRange` is `A.getRange()` and `stmtAttrRange` is
the `Range` parameter. The result pairs the returned attribute (or none) with
the diagnostics emitted, in emission order. -/
def handleFallThroughAttr (switchStackEmpty : Bool) (st : StmtClass)
    (stmtLocStart : Nat) (attrRange stmtAttrRange : SourceRange)
    (getLocForEndOfToken : Nat → Nat) : Option Attr × List Diag :=
  if st ≠ StmtClass.NullStmtClass then
    let wrongTarget := Diag.fallthroughWrongTarget attrRange.rbegin stmtLocStart
    if isaSwitchCase st then
      let l := getLocForEndOfToken stmtAttrRange.rend
      (none, [wrongTarget, Diag.fallthroughFixitInsert l ";"])
    else
      (none, [wrongTarget])
  else if switchStackEmpty then
    (none, [Diag.fallthroughOutsideSwitch attrRange.rbegin])
  else
    (some (Attr.fallThrough attrRange), [])

/-- The raw loop-hint attribute as consumed by `handleLoopHintAttr`:
`pragmaName` is `PragmaNameLoc->Ident->getName()`, `optionName` is
`OptionInfo->getName()`. `valueLoc` models the `ValueLoc` argument
(`none` when the argument pointer is null); its payload models
`ValueLoc->Ident` (`none` when that identifier pointer is null) paired here as
a nested option, with `valueLocLoc` the `ValueLoc->Loc` position.
`valueExpr` models the `ValueExpr` argument: `none` when the expression
pointer is null, `some none` when the expression is not an integer constant
expression, and `some (some v)` when it is one with value `v`
(`isIntegerConstantExpr` delegated to the external evaluator). -/
structure RawLoopHintAttr where
  pragmaName : String
  optionName : String
  valueLoc : Option (Option String)
  valueLocLoc : Nat
  valueExpr : Option (Option Int)
  range : SourceRange
  deriving DecidableEq

/-- `ValueInfo = ValueLoc ? ValueLoc->Ident : nullptr` (line 52). -/
def valueInfoOf (a : RawLoopHintAttr) : Option String :=
  match a.valueLoc with
  | none => none
  | some i => i

/-- The option-name lookup of lines 79-87: a `StringSwitch` with default
`Vectorize`. -/
def optionFromName (s : String) : OptionType :=
  if s = "vectorize" then OptionType.Vectorize
  else if s = "vectorize_width" then OptionType.VectorizeWidth
  else if s = "interleave" then OptionType.Interleave
  else if s = "interleave_count" then OptionType.InterleaveCount
  else if s = "unroll" then OptionType.Unroll
  else if s = "unroll_count" then OptionType.UnrollCount
  else OptionType.Vectorize

/-- The pragma spelling string of lines 61-65: a `StringSwitch` on the pragma
name with default string for the generic loop pragma. -/
def pragmaSpelling (name : String) : String :=
  if name = "unroll" then "#pragma unroll"
  else if name = "nounroll" then "#pragma nounroll"
  else "#pragma clang loop"

/-- Truncation of a mathematical integer to the signed 32-bit range, modelling
the narrowing assignment of the `int64_t` result of `getSExtValue()` into the
`int ValueInt` at line 125 (two's complement wrap-around). -/
def toInt32 (v : Int) : Int :=
  (v + 2147483648) % 4294967296 - 2147483648

/-- The decoding part of `handleLoopHintAttr` (lines 70-133), after the
statement-kind gate has passed: computes `Option` and `Spelling` from the
pragma name, then resolves the value, or fails with the diagnostic the source
emits. -/
def decodeLoopHint (a : RawLoopHintAttr) : Except Diag LoopHintAttr :=
  let os :=
    if a.pragmaName = "unroll" then
      ((if a.valueLoc.isSome then OptionType.UnrollCount else OptionType.Unroll),
       Spelling.Pragma_unroll)
    else if a.pragmaName = "nounroll" then
      (OptionType.Unroll, Spelling.Pragma_nounroll)
    else
      (optionFromName a.optionName, Spelling.Pragma_clang_loop)
  let opt := os.1
  let spelling := os.2
  if opt = OptionType.Unroll ∧ spelling = Spelling.Pragma_unroll then
    Except.ok ⟨spelling, opt, 1, a.range⟩
  else if opt = OptionType.Unroll ∧ spelling = Spelling.Pragma_nounroll then
    Except.ok ⟨spelling, opt, 0, a.range⟩
  else if opt = OptionType.Vectorize ∨ opt = OptionType.Interleave ∨
      opt = OptionType.Unroll then
    let trueKeyword := if opt = OptionType.Unroll then "full" else "enable"
    match valueInfoOf a with
    | none => Except.error (Diag.invalidKeyword a.valueLocLoc trueKeyword)
    | some kw =>
      if kw = "disable" then Except.ok ⟨spelling, opt, 0, a.range⟩
      else if kw = trueKeyword then Except.ok ⟨spelling, opt, 1, a.range⟩
      else Except.error (Diag.invalidKeyword a.valueLocLoc trueKeyword)
  else
    match a.valueExpr with
    | some (some v) =>
      let valueInt := toInt32 v
      if valueInt < 1 then Except.error (Diag.invalidValue a.valueLocLoc)
      else Except.ok ⟨spelling, opt, valueInt, a.range⟩
    | _ => Except.error (Diag.invalidValue a.valueLocLoc)

/-- `handleLoopHintAttr` (lines 46-134): the statement-kind gate of lines
57-68 followed by decoding. `stmtLocStart` models `St->getLocStart()`. -/
def handleLoopHintAttr (st : StmtClass) (stmtLocStart : Nat)
    (a : RawLoopHintAttr) : Except Diag LoopHintAttr :=
  if st ≠ StmtClass.DoStmtClass ∧ st ≠ StmtClass.ForStmtClass ∧
      st ≠ StmtClass.CXXForRangeStmtClass ∧ st ≠ StmtClass.WhileStmtClass then
    Except.error (Diag.precedesNonLoop stmtLocStart (pragmaSpelling a.pragmaName))
  else
    decodeLoopHint a

/-- The loop of `ProcessStmtAttributes` (lines 233-236) restricted to
loop-hint attributes: each attribute is handled independently; a failed one is
dropped and the rest are processed unchanged. -/
def processLoopHintAttrs (st : StmtClass) (stmtLocStart : Nat)
    (as : List RawLoopHintAttr) : List Attr :=
  as.filterMap (fun a =>
    match handleLoopHintAttr st stmtLocStart a with
    | Except.ok h => some (Attr.loopHint h)
    | Except.error _ => none)

/-- The three loop-hint categories of `CheckForIncompatibleAttributes`
(line 160). -/
inductive Category where
  | Vectorize
  | Interleave
  | Unroll
  deriving DecidableEq

/-- The category switch of lines 161-174. -/
def categoryOf : OptionType → Category
  | OptionType.Vectorize => Category.Vectorize
  | OptionType.VectorizeWidth => Category.Vectorize
  | OptionType.Interleave => Category.Interleave
  | OptionType.InterleaveCount => Category.Interleave
  | OptionType.Unroll => Category.Unroll
  | OptionType.UnrollCount => Category.Unroll

/-- The test of lines 179-180: the option is an enable/disable form
(`Vectorize`, `Interleave` or `Unroll`), as opposed to a numeric form. -/
def isEnableForm (o : OptionType) : Bool :=
  o == OptionType.Vectorize || o == OptionType.Interleave ||
    o == OptionType.Unroll

/-- One entry of the `HintAttrs` array (lines 146-149). -/
structure CategoryState where
  enableAttr : Option LoopHintAttr
  numericAttr : Option LoopHintAttr
  deriving DecidableEq

/-- The `HintAttrs` array: one `CategoryState` per category. -/
structure HintState where
  vec : CategoryState
  itl : CategoryState
  unr : CategoryState
  deriving DecidableEq

def HintState.get (s : HintState) : Category → CategoryState
  | Category.Vectorize => s.vec
  | Category.Interleave => s.itl
  | Category.Unroll => s.unr

def HintState.set (s : HintState) (c : Category) (cs : CategoryState) :
    HintState :=
  match c with
  | Category.Vectorize => { s with vec := cs }
  | Category.Interleave => { s with itl := cs }
  | Category.Unroll => { s with unr := cs }

/-- The initial `HintAttrs` array of line 149: all slots null. -/
def initialHintState : HintState :=
  ⟨⟨none, none⟩, ⟨none, none⟩, ⟨none, none⟩⟩

/-- The body of the loop of `CheckForIncompatibleAttributes` for one loop
hint, acting on the state of the hint's category (lines 176-205): record the
hint in its slot, emit a duplicate diagnostic when the slot was occupied
(lines 190-194), then emit an incompatibility diagnostic when both slots are
now occupied and the category is `Unroll` or the stored enable attribute has
value zero (lines 196-205). Diagnostics are listed in emission order. -/
def stepCatState (category : Category) (cs : CategoryState)
    (lh : LoopHintAttr) : CategoryState × List Diag :=
  let optionLoc := lh.range.rbegin
  let pc :=
    if isEnableForm lh.option then
      (cs.enableAttr, { cs with enableAttr := some lh })
    else
      (cs.numericAttr, { cs with numericAttr := some lh })
  let prevAttr := pc.1
  let cs2 := pc.2
  let dupDiags :=
    match prevAttr with
    | some p => [Diag.loopCompat optionLoc true p lh]
    | none => []
  let incDiags :=
    match cs2.enableAttr, cs2.numericAttr with
    | some e, some n =>
      if category = Category.Unroll ∨ e.value = 0 then
        [Diag.loopCompat optionLoc false e n]
      else []
    | _, _ => []
  (cs2, dupDiags ++ incDiags)

/-- One iteration of the loop of `CheckForIncompatibleAttributes` over a loop
hint: the category is computed from the option and only that category's state
is read and updated. -/
def compatStep (s : HintState) (lh : LoopHintAttr) : HintState × List Diag :=
  let category := categoryOf lh.option
  let r := stepCatState category (s.get category) lh
  (s.set category r.1, r.2)

/-- The loop of `CheckForIncompatibleAttributes` (lines 151-206): non
loop-hint attributes are skipped, loop hints update the per-category state and
may emit diagnostics. -/
def checkGo (s : HintState) : List Attr → List Diag
  | [] => []
  | a :: rest =>
    match a with
    | Attr.fallThrough _ => checkGo s rest
    | Attr.loopHint lh =>
      let r := compatStep s lh
      r.2 ++ checkGo r.1 rest

/-- `CheckForIncompatibleAttributes` (lines 136-207): the diagnostics emitted
for a statement's processed attribute list, in order. -/
def CheckForIncompatibleAttributes (attrs : List Attr) : List Diag :=
  checkGo initialHintState attrs

/-- Recognizes an incompatibility diagnostic (line 201, `Duplicate` false). -/
def isIncompatDiag : Diag → Bool
  | Diag.loopCompat _ false _ _ => true
  | _ => false

/-- Recognizes a duplicate diagnostic (line 192, `Duplicate` true). -/
def isDupDiag : Diag → Bool
  | Diag.loopCompat _ true _ _ => true
  | _ => false

/-- Recognizes a compatibility diagnostic with the given duplicate flag whose
current attribute belongs to the given category. -/
def compatDiagP (dup : Bool) (c : Category) : Diag → Bool
  | Diag.loopCompat _ b _ cur => b == dup && categoryOf cur.option == c
  | _ => false

/-- The category of a processed attribute, when it is a loop hint. -/
def attrCat : Attr → Option Category
  | Attr.loopHint lh => some (categoryOf lh.option)
  | Attr.fallThrough _ => none

/-- How many loop hints of the given category an attribute list holds. -/
def attrCategoryCount (c : Category) (attrs : List Attr) : Nat :=
  attrs.countP (fun a => attrCat a == some c)

/-- Modelled from the specification's words for the incompatibility rule:
after updating, the category has both slots occupied, and the category is
`Unroll` or the stored enable-form hint's value is zero. -/
def specEmitsIncompat (cat : Category) (cs : CategoryState) : Bool :=
  cs.enableAttr.isSome && cs.numericAttr.isSome &&
    (cat == Category.Unroll ||
      (match cs.enableAttr with
       | some e => e.value == 0
       | none => false))

/-- Claim C5: a fallthrough attribute on a statement that is not a null
statement is rejected with the wrong-target diagnostic and no attribute is
returned; when the statement is a case or default label, a fix-it note is
additionally emitted at the end-of-token position of the end of the attribute
source range, suggesting insertion of a semicolon. -/
theorem fallthrough_wrong_target_fixit (switchStackEmpty : Bool)
    (st : StmtClass) (stmtLocStart : Nat) (attrRange stmtAttrRange : SourceRange)
    (eot : Nat → Nat) (h : st ≠ StmtClass.NullStmtClass) :
    handleFallThroughAttr switchStackEmpty st stmtLocStart attrRange
        stmtAttrRange eot =
      (none,
        Diag.fallthroughWrongTarget attrRange.rbegin stmtLocStart ::
          (if isaSwitchCase st then
            [Diag.fallthroughFixitInsert (eot stmtAttrRange.rend) ";"]
          else [])) := by
  unfold handleFallThroughAttr
  rw [if_pos h]
  by_cases hc : isaSwitchCase st
  · rw [if_pos hc, if_pos hc]
  · rw [if_neg hc, if_neg hc]

theorem fallthrough_wrong_target_fixit_witness :
    StmtClass.CaseStmtClass ≠ StmtClass.NullStmtClass ∧
    handleFallThroughAttr false StmtClass.CaseStmtClass 7 ⟨1, 2⟩ ⟨1, 3⟩
        (fun l => l + 1) =
      (none, [Diag.fallthroughWrongTarget 1 7,
        Diag.fallthroughFixitInsert 4 ";"]) := by
  refine ⟨by decide, ?_⟩
  rw [fallthrough_wrong_target_fixit false StmtClass.CaseStmtClass 7 ⟨1, 2⟩
    ⟨1, 3⟩ (fun l => l + 1) (by decide)]
  rfl

/-- Claim C6: a loop-hint attribute on a statement that is not a do, for,
ranged-for or while loop is rejected with the precedes-non-loop diagnostic
carrying the pragma spelling string, which is determined by the pragma family
name, and no hint is attached. -/
theorem loop_hint_precedes_nonloop (st : StmtClass) (stmtLocStart : Nat)
    (a : RawLoopHintAttr)
    (h : st ≠ StmtClass.DoStmtClass ∧ st ≠ StmtClass.ForStmtClass ∧
      st ≠ StmtClass.CXXForRangeStmtClass ∧ st ≠ StmtClass.WhileStmtClass) :
    handleLoopHintAttr st stmtLocStart a =
      Except.error
        (Diag.precedesNonLoop stmtLocStart (pragmaSpelling a.pragmaName)) ∧
    (a.pragmaName = "unroll" →
      pragmaSpelling a.pragmaName = "#pragma unroll") ∧
    (a.pragmaName = "nounroll" →
      pragmaSpelling a.pragmaName = "#pragma nounroll") ∧
    (a.pragmaName ≠ "unroll" → a.pragmaName ≠ "nounroll" →
      pragmaSpelling a.pragmaName = "#pragma clang loop") ∧
    (∀ as, processLoopHintAttrs st stmtLocStart as = []) := by
  have hreject : ∀ x : RawLoopHintAttr, handleLoopHintAttr st stmtLocStart x =
      Except.error
        (Diag.precedesNonLoop stmtLocStart (pragmaSpelling x.pragmaName)) := by
    intro x
    unfold handleLoopHintAttr
    rw [if_pos h]
  refine ⟨hreject a, ?_, ?_, ?_, ?_⟩
  · intro hp; rw [hp]; rfl
  · intro hp; rw [hp]; rfl
  · intro hp1 hp2
    unfold pragmaSpelling
    rw [if_neg hp1, if_neg hp2]
  · intro as
    induction as with
    | nil => rfl
    | cons x xs ih =>
      unfold processLoopHintAttrs at ih ⊢
      rw [List.filterMap_cons, hreject x]
      exact ih

theorem loop_hint_precedes_nonloop_witness :
    handleLoopHintAttr StmtClass.IfStmtClass 5
        ⟨"unroll", "", none, 0, none, ⟨0, 0⟩⟩ =
      Except.error (Diag.precedesNonLoop 5 "#pragma unroll") := by
  have h := loop_hint_precedes_nonloop StmtClass.IfStmtClass 5
    ⟨"unroll", "", none, 0, none, ⟨0, 0⟩⟩ (by decide)
  rw [h.1, h.2.1 rfl]

/-- Claim C7: a raw attribute whose pragma family name is unroll and whose
value-keyword argument is absent decodes to a loop hint with spelling
`Pragma_unroll`, option `Unroll` and value 1. -/
theorem pragma_unroll_no_keyword_full (a : RawLoopHintAttr)
    (hp : a.pragmaName = "unroll") (hv : a.valueLoc = none) :
    decodeLoopHint a =
      Except.ok ⟨Spelling.Pragma_unroll, OptionType.Unroll, 1, a.range⟩ := by
  obtain ⟨pn, opt, vl, vll, ve, rg⟩ := a
  simp only at hp hv
  subst hp hv
  rfl

theorem pragma_unroll_no_keyword_full_witness :
    decodeLoopHint ⟨"unroll", "", none, 0, none, ⟨2, 9⟩⟩ =
      Except.ok ⟨Spelling.Pragma_unroll, OptionType.Unroll, 1, ⟨2, 9⟩⟩ :=
  pragma_unroll_no_keyword_full ⟨"unroll", "", none, 0, none, ⟨2, 9⟩⟩ rfl rfl

/-- Claim C8: a raw attribute whose pragma family name is nounroll decodes to
a loop hint with spelling `Pragma_nounroll`, option `Unroll` and value 0, no
matter what value keyword or value expression it also carries. -/
theorem pragma_nounroll_disables (a : RawLoopHintAttr)
    (hp : a.pragmaName = "nounroll") :
    decodeLoopHint a =
      Except.ok ⟨Spelling.Pragma_nounroll, OptionType.Unroll, 0, a.range⟩ := by
  obtain ⟨pn, opt, vl, vll, ve, rg⟩ := a
  simp only at hp
  subst hp
  rfl

theorem pragma_nounroll_disables_witness :
    decodeLoopHint
        ⟨"nounroll", "vectorize", some (some "enable"), 3, some (some 8),
          ⟨4, 6⟩⟩ =
      Except.ok ⟨Spelling.Pragma_nounroll, OptionType.Unroll, 0, ⟨4, 6⟩⟩ :=
  pragma_nounroll_disables
    ⟨"nounroll", "vectorize", some (some "enable"), 3, some (some 8), ⟨4, 6⟩⟩
    rfl

lemma isEnableForm_true_cases (o : OptionType) (h : isEnableForm o = true) :
    o = OptionType.Vectorize ∨ o = OptionType.Interleave ∨
      o = OptionType.Unroll := by
  cases o <;> simp_all [isEnableForm]

lemma isEnableForm_false_cases (o : OptionType) (h : isEnableForm o = false) :
    o = OptionType.VectorizeWidth ∨ o = OptionType.InterleaveCount ∨
      o = OptionType.UnrollCount := by
  cases o <;> simp_all [isEnableForm]

/-- Shape of the decoder on the generic pragma family: the option comes from
the option-name lookup, the spelling is the generic one, and the value is
resolved by keyword for enable forms and by constant expression for numeric
forms. -/
lemma decodeLoopHint_generic (a : RawLoopHintAttr)
    (h1 : a.pragmaName ≠ "unroll") (h2 : a.pragmaName ≠ "nounroll") :
    decodeLoopHint a =
      (if isEnableForm (optionFromName a.optionName) then
        let tk := if optionFromName a.optionName = OptionType.Unroll then
            "full" else "enable"
        match valueInfoOf a with
        | none => Except.error (Diag.invalidKeyword a.valueLocLoc tk)
        | some kw =>
          if kw = "disable" then
            Except.ok ⟨Spelling.Pragma_clang_loop, optionFromName a.optionName,
              0, a.range⟩
          else if kw = tk then
            Except.ok ⟨Spelling.Pragma_clang_loop, optionFromName a.optionName,
              1, a.range⟩
          else Except.error (Diag.invalidKeyword a.valueLocLoc tk)
      else
        match a.valueExpr with
        | some (some v) =>
          if toInt32 v < 1 then Except.error (Diag.invalidValue a.valueLocLoc)
          else Except.ok ⟨Spelling.Pragma_clang_loop,
            optionFromName a.optionName, toInt32 v, a.range⟩
        | _ => Except.error (Diag.invalidValue a.valueLocLoc)) := by
  unfold decodeLoopHint
  simp only [if_neg h1, if_neg h2]
  cases ho : optionFromName a.optionName <;> simp [isEnableForm]

/-- The decoder on a generic numeric-form hint with a constant value. -/
lemma decodeLoopHint_generic_numeric (a : RawLoopHintAttr) (v : Int)
    (h1 : a.pragmaName ≠ "unroll") (h2 : a.pragmaName ≠ "nounroll")
    (hnum : isEnableForm (optionFromName a.optionName) = false)
    (hv : a.valueExpr = some (some v)) :
    decodeLoopHint a =
      if toInt32 v < 1 then Except.error (Diag.invalidValue a.valueLocLoc)
      else Except.ok ⟨Spelling.Pragma_clang_loop, optionFromName a.optionName,
        toInt32 v, a.range⟩ := by
  rw [decodeLoopHint_generic a h1 h2]
  simp [hnum, hv]

/-- The decoder on a generic numeric-form hint with a missing or non-constant
value expression. -/
lemma decodeLoopHint_generic_numeric_fail (a : RawLoopHintAttr)
    (h1 : a.pragmaName ≠ "unroll") (h2 : a.pragmaName ≠ "nounroll")
    (hnum : isEnableForm (optionFromName a.optionName) = false)
    (hv : a.valueExpr = none ∨ a.valueExpr = some none) :
    decodeLoopHint a = Except.error (Diag.invalidValue a.valueLocLoc) := by
  rw [decodeLoopHint_generic a h1 h2]
  rcases hv with hv | hv <;> simp [hnum, hv]

/-- `toInt32` is the identity on the signed 32-bit range. -/
lemma toInt32_eq_self (v : Int) (hl : -2147483648 ≤ v)
    (hu : v < 2147483648) : toInt32 v = v := by
  unfold toInt32
  rw [Int.emod_eq_of_lt (by omega) (by omega)]
  omega

/-- Claim C3: a generic-pragma enable-form hint decodes the keyword disable
to value 0 and the expected true keyword (full for unroll, enable otherwise)
to value 1; any other keyword, or a missing keyword, fails with the
invalid-keyword diagnostic naming the true keyword, and the failed hint is
dropped without affecting the processing of later hints. -/
theorem generic_enable_form_keyword_cases (a : RawLoopHintAttr) (tk : String)
    (h1 : a.pragmaName ≠ "unroll") (h2 : a.pragmaName ≠ "nounroll")
    (henable : isEnableForm (optionFromName a.optionName) = true)
    (htk : tk = if optionFromName a.optionName = OptionType.Unroll then "full"
      else "enable") :
    (valueInfoOf a = none →
      decodeLoopHint a =
        Except.error (Diag.invalidKeyword a.valueLocLoc tk)) ∧
    (valueInfoOf a = some "disable" →
      decodeLoopHint a = Except.ok
        ⟨Spelling.Pragma_clang_loop, optionFromName a.optionName, 0,
          a.range⟩) ∧
    (valueInfoOf a = some tk →
      decodeLoopHint a = Except.ok
        ⟨Spelling.Pragma_clang_loop, optionFromName a.optionName, 1,
          a.range⟩) ∧
    (∀ kw, valueInfoOf a = some kw → kw ≠ "disable" → kw ≠ tk →
      decodeLoopHint a =
        Except.error (Diag.invalidKeyword a.valueLocLoc tk)) ∧
    (∀ st loc e rest, handleLoopHintAttr st loc a = Except.error e →
      processLoopHintAttrs st loc (a :: rest) =
        processLoopHintAttrs st loc rest) := by
  subst htk
  refine ⟨?_, ?_, ?_, ?_, ?_⟩
  · intro hv; rw [decodeLoopHint_generic a h1 h2]; simp [henable, hv]
  · intro hv; rw [decodeLoopHint_generic a h1 h2]; simp [henable, hv]
  · intro hv; rw [decodeLoopHint_generic a h1 h2]
    by_cases hu : optionFromName a.optionName = OptionType.Unroll
    · rw [if_pos hu] at hv
      have hen2 := henable
      rw [hu] at hen2
      simp [hen2, hv, hu]
    · rw [if_neg hu] at hv
      simp [henable, hv, hu]
  · intro kw hv hkw1 hkw2
    rw [decodeLoopHint_generic a h1 h2]
    simp [henable, hv, hkw1, hkw2]
  · intro st loc e rest h
    simp only [processLoopHintAttrs, List.filterMap_cons, h]

theorem generic_enable_form_keyword_cases_witness :
    decodeLoopHint ⟨"loop", "unroll", some (some "wat"), 3, none, ⟨0, 0⟩⟩ =
      Except.error (Diag.invalidKeyword 3 "full") := by
  have h := generic_enable_form_keyword_cases
    ⟨"loop", "unroll", some (some "wat"), 3, none, ⟨0, 0⟩⟩ "full"
    (by decide) (by decide) (by decide) (by decide)
  exact h.2.2.2.1 "wat" rfl (by decide) (by decide)

/-- Counterexample to claim C4 as stated: the constant value 2 to the 31st
power satisfies v greater or equal 1, yet the decoder rejects the hint with
the invalid-value diagnostic, because the comparison is made on the value
truncated to a signed 32-bit integer. -/
theorem numeric_pow31_invalid_value :
    decodeLoopHint
        ⟨"loop", "vectorize_width", none, 4, some (some (2 ^ 31)), ⟨0, 0⟩⟩ =
      Except.error (Diag.invalidValue 4) ∧
    (1 : Int) ≤ 2 ^ 31 := by
  constructor
  · rfl
  · norm_num

/-- Claim C4 as amended: for a generic-pragma numeric-form hint, decoding
fails with the invalid-value diagnostic when the value expression is absent or
non-constant; with a constant value v it succeeds exactly when the value
truncated to a signed 32-bit integer is at least 1, storing that truncated
value. For constants in the signed 32-bit range the original claim holds:
success exactly for v greater or equal 1, with v stored unchanged. -/
theorem generic_numeric_form_value_cases (a : RawLoopHintAttr)
    (h1 : a.pragmaName ≠ "unroll") (h2 : a.pragmaName ≠ "nounroll")
    (hnum : isEnableForm (optionFromName a.optionName) = false) :
    (a.valueExpr = none →
      decodeLoopHint a = Except.error (Diag.invalidValue a.valueLocLoc)) ∧
    (a.valueExpr = some none →
      decodeLoopHint a = Except.error (Diag.invalidValue a.valueLocLoc)) ∧
    (∀ v, a.valueExpr = some (some v) →
      decodeLoopHint a =
        if toInt32 v < 1 then Except.error (Diag.invalidValue a.valueLocLoc)
        else Except.ok ⟨Spelling.Pragma_clang_loop,
          optionFromName a.optionName, toInt32 v, a.range⟩) ∧
    (∀ v, a.valueExpr = some (some v) → 1 ≤ v → v < 2 ^ 31 →
      decodeLoopHint a = Except.ok ⟨Spelling.Pragma_clang_loop,
        optionFromName a.optionName, v, a.range⟩) ∧
    (∀ v, a.valueExpr = some (some v) → -(2 ^ 31) ≤ v → v < 1 →
      decodeLoopHint a = Except.error (Diag.invalidValue a.valueLocLoc)) := by
  have h31 : (2 : Int) ^ 31 = 2147483648 := by norm_num
  refine ⟨?_, ?_, ?_, ?_, ?_⟩
  · intro hv; exact decodeLoopHint_generic_numeric_fail a h1 h2 hnum (Or.inl hv)
  · intro hv; exact decodeLoopHint_generic_numeric_fail a h1 h2 hnum (Or.inr hv)
  · intro v hv; exact decodeLoopHint_generic_numeric a v h1 h2 hnum hv
  · intro v hv hl hu
    rw [h31] at hu
    have ht : toInt32 v = v := toInt32_eq_self v (by omega) hu
    rw [decodeLoopHint_generic_numeric a v h1 h2 hnum hv, ht,
      if_neg (by omega)]
  · intro v hv hl hu
    rw [h31] at hl
    have ht : toInt32 v = v := toInt32_eq_self v (by omega) (by omega)
    rw [decodeLoopHint_generic_numeric a v h1 h2 hnum hv, ht, if_pos hu]

theorem generic_numeric_form_value_cases_witness :
    decodeLoopHint ⟨"loop", "unroll_count", none, 2, some (some 4), ⟨0, 0⟩⟩ =
      Except.ok ⟨Spelling.Pragma_clang_loop, OptionType.UnrollCount, 4,
        ⟨0, 0⟩⟩ ∧
    decodeLoopHint ⟨"loop", "interleave_count", none, 2, some none, ⟨0, 0⟩⟩ =
      Except.error (Diag.invalidValue 2) := by
  have h1 := generic_numeric_form_value_cases
    ⟨"loop", "unroll_count", none, 2, some (some 4), ⟨0, 0⟩⟩
    (by decide) (by decide) (by decide)
  have h2 := generic_numeric_form_value_cases
    ⟨"loop", "interleave_count", none, 2, some none, ⟨0, 0⟩⟩
    (by decide) (by decide) (by decide)
  exact ⟨h1.2.2.2.1 4 rfl (by norm_num) (by norm_num), h2.2.1 rfl⟩

/-- Claim C10: the value compared against 1 and stored for a generic-pragma
numeric-form hint is the sign-extended constant value truncated to a signed
32-bit integer; in the range from 1 up to 2 to the 31st power the stored value
equals the constant exactly, and for example the constant equal to 2 to the
32nd power plus 1 is accepted with stored value 1. -/
theorem numeric_value_trunc32 :
    (∀ (a : RawLoopHintAttr) (v : Int),
      a.pragmaName ≠ "unroll" → a.pragmaName ≠ "nounroll" →
      isEnableForm (optionFromName a.optionName) = false →
      a.valueExpr = some (some v) →
      decodeLoopHint a =
        if toInt32 v < 1 then Except.error (Diag.invalidValue a.valueLocLoc)
        else Except.ok ⟨Spelling.Pragma_clang_loop,
          optionFromName a.optionName, toInt32 v, a.range⟩) ∧
    (∀ v : Int, 1 ≤ v → v < 2 ^ 31 → toInt32 v = v) ∧
    toInt32 (2 ^ 32 + 1) = 1 ∧
    decodeLoopHint
        ⟨"loop", "unroll_count", none, 0, some (some (2 ^ 32 + 1)), ⟨0, 0⟩⟩ =
      Except.ok ⟨Spelling.Pragma_clang_loop, OptionType.UnrollCount, 1,
        ⟨0, 0⟩⟩ := by
  refine ⟨?_, ?_, ?_, ?_⟩
  · intro a v h1 h2 hnum hv
    exact decodeLoopHint_generic_numeric a v h1 h2 hnum hv
  · intro v hl hu
    have h31 : (2 : Int) ^ 31 = 2147483648 := by norm_num
    rw [h31] at hu
    exact toInt32_eq_self v (by omega) hu
  · rfl
  · rfl

theorem numeric_value_trunc32_witness :
    decodeLoopHint ⟨"loop", "vectorize_width", none, 1, some (some 8),
        ⟨0, 0⟩⟩ =
      Except.ok ⟨Spelling.Pragma_clang_loop, OptionType.VectorizeWidth, 8,
        ⟨0, 0⟩⟩ := by
  have h := numeric_value_trunc32.1
    ⟨"loop", "vectorize_width", none, 1, some (some 8), ⟨0, 0⟩⟩ 8
    (by decide) (by decide) (by decide) rfl
  rw [h]
  rfl

/-- Claim C9: the generic-pragma option name is mapped to an option kind by
exact string match against the six known names, any other name mapping to
`Vectorize` rather than being rejected; a successful generic-pragma decode
carries exactly the looked-up option and the generic spelling. -/
theorem option_name_lookup :
    optionFromName "vectorize" = OptionType.Vectorize ∧
    optionFromName "vectorize_width" = OptionType.VectorizeWidth ∧
    optionFromName "interleave" = OptionType.Interleave ∧
    optionFromName "interleave_count" = OptionType.InterleaveCount ∧
    optionFromName "unroll" = OptionType.Unroll ∧
    optionFromName "unroll_count" = OptionType.UnrollCount ∧
    (∀ s : String,
      s ∉ (["vectorize", "vectorize_width", "interleave", "interleave_count",
        "unroll", "unroll_count"] : List String) →
      optionFromName s = OptionType.Vectorize) ∧
    (∀ (a : RawLoopHintAttr) (h : LoopHintAttr),
      a.pragmaName ≠ "unroll" → a.pragmaName ≠ "nounroll" →
      decodeLoopHint a = Except.ok h →
      h.option = optionFromName a.optionName ∧
      h.spelling = Spelling.Pragma_clang_loop) := by
  refine ⟨rfl, rfl, rfl, rfl, rfl, rfl, ?_, ?_⟩
  · intro s hs
    simp only [List.mem_cons, List.not_mem_nil, or_false, not_or] at hs
    obtain ⟨n1, n2, n3, n4, n5, n6⟩ := hs
    unfold optionFromName
    rw [if_neg n1, if_neg n2, if_neg n3, if_neg n4, if_neg n5, if_neg n6]
  · intro a h h1 h2 hok
    rw [decodeLoopHint_generic a h1 h2] at hok
    cases hf : isEnableForm (optionFromName a.optionName)
    · rw [hf] at hok
      simp only [Bool.false_eq_true, if_false] at hok
      rcases hve : a.valueExpr with _ | vo
      · rw [hve] at hok; cases hok
      · rcases vo with _ | v
        · rw [hve] at hok; cases hok
        · simp only [hve] at hok
          by_cases hlt : toInt32 v < 1
          · rw [if_pos hlt] at hok; cases hok
          · rw [if_neg hlt] at hok
            injection hok with hh
            subst hh
            exact ⟨rfl, rfl⟩
    · rw [hf] at hok
      simp only [if_true] at hok
      rcases hvi : valueInfoOf a with _ | kw
      · rw [hvi] at hok; cases hok
      · simp only [hvi] at hok
        by_cases hd : kw = "disable"
        · rw [if_pos hd] at hok
          injection hok with hh
          subst hh
          exact ⟨rfl, rfl⟩
        · rw [if_neg hd] at hok
          by_cases ht : kw =
              (if optionFromName a.optionName = OptionType.Unroll then "full"
               else "enable")
          · rw [if_pos ht] at hok
            injection hok with hh
            subst hh
            exact ⟨rfl, rfl⟩
          · rw [if_neg ht] at hok; cases hok

theorem option_name_lookup_witness :
    optionFromName "wibble" = OptionType.Vectorize ∧
    (⟨Spelling.Pragma_clang_loop, OptionType.UnrollCount, 4,
        ⟨0, 0⟩⟩ : LoopHintAttr).option = optionFromName "unroll_count" := by
  constructor
  · exact option_name_lookup.2.2.2.2.2.2.1 "wibble" (by decide)
  · exact (option_name_lookup.2.2.2.2.2.2.2
      ⟨"loop", "unroll_count", none, 2, some (some 4), ⟨0, 0⟩⟩
      ⟨Spelling.Pragma_clang_loop, OptionType.UnrollCount, 4, ⟨0, 0⟩⟩
      (by decide) (by decide) (by rfl)).1

lemma HintState.get_set_self (s : HintState) (c : Category)
    (cs : CategoryState) : (s.set c cs).get c = cs := by
  cases c <;> rfl

lemma HintState.get_set_ne (s : HintState) (c c2 : Category)
    (cs : CategoryState) (h : c2 ≠ c) : (s.set c cs).get c2 = s.get c2 := by
  cases c <;> cases c2 <;> first | rfl | exact absurd rfl h

lemma compatStep_fst (s : HintState) (lh : LoopHintAttr) :
    (compatStep s lh).1 =
      s.set (categoryOf lh.option)
        (stepCatState (categoryOf lh.option)
          (s.get (categoryOf lh.option)) lh).1 := rfl

lemma compatStep_snd (s : HintState) (lh : LoopHintAttr) :
    (compatStep s lh).2 =
      (stepCatState (categoryOf lh.option)
        (s.get (categoryOf lh.option)) lh).2 := rfl


/-- Per update of one category state, the incompatibility diagnostic is
emitted exactly once when the updated state satisfies the rule of the
specification, and not at all otherwise. -/
lemma stepCatState_incompat (c : Category) (cs : CategoryState)
    (lh : LoopHintAttr) :
    List.countP isIncompatDiag (stepCatState c cs lh).2 =
      if specEmitsIncompat c (stepCatState c cs lh).1 = true then 1
      else 0 := by
  rcases cs with ⟨eo, no⟩
  cases hf : isEnableForm lh.option
  · rcases eo with _ | e
    · rcases no with _ | n
      · simp [stepCatState, hf, specEmitsIncompat, isIncompatDiag]
      · simp [stepCatState, hf, specEmitsIncompat, isIncompatDiag]
    · rcases no with _ | n
      · by_cases hc : c = Category.Unroll ∨ e.value = 0
        · rcases hc with hc | hc <;>
            simp [stepCatState, hf, specEmitsIncompat, isIncompatDiag, hc]
        · push_neg at hc
          simp [stepCatState, hf, specEmitsIncompat, isIncompatDiag, hc.1,
            hc.2]
      · by_cases hc : c = Category.Unroll ∨ e.value = 0
        · rcases hc with hc | hc <;>
            simp [stepCatState, hf, specEmitsIncompat, isIncompatDiag, hc]
        · push_neg at hc
          simp [stepCatState, hf, specEmitsIncompat, isIncompatDiag, hc.1,
            hc.2]
  · rcases eo with _ | e
    · rcases no with _ | n
      · simp [stepCatState, hf, specEmitsIncompat, isIncompatDiag]
      · by_cases hc : c = Category.Unroll ∨ lh.value = 0
        · rcases hc with hc | hc <;>
            simp [stepCatState, hf, specEmitsIncompat, isIncompatDiag, hc]
        · push_neg at hc
          simp [stepCatState, hf, specEmitsIncompat, isIncompatDiag, hc.1,
            hc.2]
    · rcases no with _ | n
      · simp [stepCatState, hf, specEmitsIncompat, isIncompatDiag]
      · by_cases hc : c = Category.Unroll ∨ lh.value = 0
        · rcases hc with hc | hc <;>
            simp [stepCatState, hf, specEmitsIncompat, isIncompatDiag, hc]
        · push_neg at hc
          simp [stepCatState, hf, specEmitsIncompat, isIncompatDiag, hc.1,
            hc.2]

/-- Claim C1: at each processed loop hint, the compatibility checker emits an
incompatibility diagnostic exactly when, after updating, both slots of the
hint's category are occupied and the category is unroll or the stored
enable-form hint's value is zero; in particular vectorize enable followed by
a vectorize width hint yields no incompatibility diagnostic, while vectorize
disable followed by a vectorize width hint, and unroll full followed by an
unroll count hint, each yield exactly one. -/
theorem compat_incompat_iff_spec :
    (∀ (s : HintState) (lh : LoopHintAttr),
      List.countP isIncompatDiag (compatStep s lh).2 =
        if specEmitsIncompat (categoryOf lh.option)
            ((compatStep s lh).1.get (categoryOf lh.option)) = true
        then 1 else 0) ∧
    (∀ (n : Int) (r1 r2 : SourceRange),
      List.countP isIncompatDiag (CheckForIncompatibleAttributes
        [Attr.loopHint ⟨Spelling.Pragma_clang_loop, OptionType.Vectorize, 1,
          r1⟩,
         Attr.loopHint ⟨Spelling.Pragma_clang_loop, OptionType.VectorizeWidth,
          n, r2⟩]) = 0) ∧
    (∀ (n : Int) (r1 r2 : SourceRange),
      List.countP isIncompatDiag (CheckForIncompatibleAttributes
        [Attr.loopHint ⟨Spelling.Pragma_clang_loop, OptionType.Vectorize, 0,
          r1⟩,
         Attr.loopHint ⟨Spelling.Pragma_clang_loop, OptionType.VectorizeWidth,
          n, r2⟩]) = 1) ∧
    (∀ (n : Int) (r1 r2 : SourceRange),
      List.countP isIncompatDiag (CheckForIncompatibleAttributes
        [Attr.loopHint ⟨Spelling.Pragma_clang_loop, OptionType.Unroll, 1,
          r1⟩,
         Attr.loopHint ⟨Spelling.Pragma_clang_loop, OptionType.UnrollCount,
          n, r2⟩]) = 1) := by
  refine ⟨?_, ?_, ?_, ?_⟩
  · intro s lh
    rw [compatStep_snd, compatStep_fst, HintState.get_set_self]
    exact stepCatState_incompat (categoryOf lh.option)
      (s.get (categoryOf lh.option)) lh
  · intro n r1 r2; rfl
  · intro n r1 r2; rfl
  · intro n r1 r2; rfl

/-- Counterexample to claim C2 as stated: with three vectorize-category hints,
disable then two width hints, the checker emits the incompatibility diagnostic
twice for the vectorize category, once after each width hint, because the
incompatibility test runs again after every update of an already conflicting
category. -/
theorem compat_two_incompat_diags_one_category :
    List.countP (compatDiagP false Category.Vectorize)
      (CheckForIncompatibleAttributes
        [Attr.loopHint
          ⟨Spelling.Pragma_clang_loop, OptionType.Vectorize, 0, ⟨0, 1⟩⟩,
         Attr.loopHint
          ⟨Spelling.Pragma_clang_loop, OptionType.VectorizeWidth, 8, ⟨2, 3⟩⟩,
         Attr.loopHint
          ⟨Spelling.Pragma_clang_loop, OptionType.VectorizeWidth, 4,
            ⟨4, 5⟩⟩]) = 2 := by
  rfl

/-- The slots of a category state hold only hints of that category and of the
matching form. -/
def catStateWF (c : Category) (cs : CategoryState) : Prop :=
  (∀ e, cs.enableAttr = some e →
    categoryOf e.option = c ∧ isEnableForm e.option = true) ∧
  (∀ n, cs.numericAttr = some n →
    categoryOf n.option = c ∧ isEnableForm n.option = false)

/-- Well-formedness of the whole hint-tracking state. -/
def stateWF (s : HintState) : Prop := ∀ c, catStateWF c (s.get c)

/-- Both slots of a category state are unoccupied. -/
def catEmpty (cs : CategoryState) : Bool :=
  cs.enableAttr.isNone && cs.numericAttr.isNone

lemma stateWF_initial : stateWF initialHintState := by
  intro c
  constructor <;> intro x hx <;> cases c <;>
    simp [initialHintState, HintState.get] at hx

lemma stepCatState_wf (c : Category) (cs : CategoryState) (lh : LoopHintAttr)
    (hc : categoryOf lh.option = c) (hwf : catStateWF c cs) :
    catStateWF c (stepCatState c cs lh).1 := by
  cases hf : isEnableForm lh.option <;>
    simp only [stepCatState, hf, Bool.false_eq_true, if_false, if_true]
  · exact ⟨hwf.1, fun n hn => by cases hn; exact ⟨hc, hf⟩⟩
  · exact ⟨fun e he => by cases he; exact ⟨hc, hf⟩, hwf.2⟩

lemma compatStep_wf (s : HintState) (lh : LoopHintAttr) (hwf : stateWF s) :
    stateWF (compatStep s lh).1 := by
  intro c
  rw [compatStep_fst]
  by_cases hc : c = categoryOf lh.option
  · subst hc
    rw [HintState.get_set_self]
    exact stepCatState_wf (categoryOf lh.option)
      (s.get (categoryOf lh.option)) lh rfl (hwf _)
  · rw [HintState.get_set_ne _ _ _ _ hc]
    exact hwf c

/-- A step on a hint of one category emits no compatibility diagnostic counted
for a different category. -/
lemma stepCatState_diag_cat (c : Category) (cs : CategoryState)
    (lh : LoopHintAttr) (hc : categoryOf lh.option = c)
    (hwf : catStateWF c cs) (dup : Bool) (c2 : Category) (hne : c2 ≠ c) :
    List.countP (compatDiagP dup c2) (stepCatState c cs lh).2 = 0 := by
  have hlh : (categoryOf lh.option == c2) = false := by
    rw [hc]
    exact beq_eq_false_iff_ne.mpr (Ne.symm hne)
  rcases cs with ⟨eo, no⟩
  cases hf : isEnableForm lh.option
  · rcases eo with _ | e <;> rcases no with _ | n <;>
      simp [stepCatState, hf, compatDiagP, hlh]
  · rcases no with _ | n
    · rcases eo with _ | e <;>
        simp [stepCatState, hf, compatDiagP, hlh]
    · have hn2 : (categoryOf n.option == c2) = false := by
        rw [(hwf.2 n rfl).1]
        exact beq_eq_false_iff_ne.mpr (Ne.symm hne)
      rcases eo with _ | e <;>
        simp [stepCatState, hf, compatDiagP, hlh, hn2]

/-- Recognizes a compatibility diagnostic with the given duplicate flag. -/
def flagDiagP (dup : Bool) : Diag → Bool
  | Diag.loopCompat _ b _ _ => b == dup
  | _ => false

lemma compatDiagP_le_flag (dup : Bool) (c2 : Category) (d : Diag)
    (h : compatDiagP dup c2 d = true) : flagDiagP dup d = true := by
  cases d <;> simp_all [compatDiagP, flagDiagP]

/-- One step emits at most one diagnostic with each duplicate flag. -/
lemma stepCatState_flag_le_one (dup : Bool) (c : Category)
    (cs : CategoryState) (lh : LoopHintAttr) :
    List.countP (flagDiagP dup) (stepCatState c cs lh).2 ≤ 1 := by
  rcases cs with ⟨eo, no⟩
  cases hf : isEnableForm lh.option <;> cases dup <;>
    rcases eo with _ | e <;> rcases no with _ | n <;>
    simp [stepCatState, hf, flagDiagP] <;> split_ifs <;>
    simp [flagDiagP]

/-- One step emits at most one diagnostic of each kind counted for any
category. -/
lemma stepCatState_count_le_one (dup : Bool) (c2 c : Category)
    (cs : CategoryState) (lh : LoopHintAttr) :
    List.countP (compatDiagP dup c2) (stepCatState c cs lh).2 ≤ 1 :=
  le_trans
    (List.countP_mono_left (fun d _ => compatDiagP_le_flag dup c2 d))
    (stepCatState_flag_le_one dup c cs lh)

/-- A step on a category whose state is empty emits nothing, and its state is
no longer empty afterwards. -/
lemma stepCatState_of_empty (c : Category) (cs : CategoryState)
    (lh : LoopHintAttr) (he : catEmpty cs = true) :
    (stepCatState c cs lh).2 = [] ∧
      catEmpty (stepCatState c cs lh).1 = false := by
  rcases cs with ⟨eo, no⟩
  simp only [catEmpty, Bool.and_eq_true, Option.isNone_iff_eq_none] at he
  obtain ⟨he1, he2⟩ := he
  subst he1
  subst he2
  cases hf : isEnableForm lh.option <;> simp [stepCatState, hf, catEmpty]

/-- After any step, the state of the stepped category is not empty. -/
lemma stepCatState_fst_nonempty (c : Category) (cs : CategoryState)
    (lh : LoopHintAttr) : catEmpty (stepCatState c cs lh).1 = false := by
  rcases cs with ⟨eo, no⟩
  cases hf : isEnableForm lh.option <;> simp [stepCatState, hf, catEmpty]

/-- Along a run of the checker from a well-formed state, each category
contributes at most one compatibility diagnostic of each kind per hint of
that category, and none for its first hint when its state starts empty. -/
lemma checkGo_count_le (dup : Bool) (c : Category) :
    ∀ (attrs : List Attr) (s : HintState), stateWF s →
      List.countP (compatDiagP dup c) (checkGo s attrs) ≤
        attrCategoryCount c attrs -
          (if catEmpty (s.get c) = true then 1 else 0) := by
  intro attrs
  induction attrs with
  | nil => intro s _; simp [checkGo, attrCategoryCount]
  | cons a rest ih =>
    intro s hwf
    cases a with
    | fallThrough r =>
      have h1 := ih s hwf
      have h2 : attrCategoryCount c (Attr.fallThrough r :: rest) =
          attrCategoryCount c rest := by
        simp [attrCategoryCount, List.countP_cons, attrCat]
      rw [show checkGo s (Attr.fallThrough r :: rest) = checkGo s rest from
        rfl, h2]
      exact h1
    | loopHint lh =>
      rw [show checkGo s (Attr.loopHint lh :: rest) =
        (compatStep s lh).2 ++ checkGo (compatStep s lh).1 rest from rfl,
        List.countP_append]
      have hwf2 : stateWF (compatStep s lh).1 := compatStep_wf s lh hwf
      have ih2 := ih (compatStep s lh).1 hwf2
      by_cases hc : c = categoryOf lh.option
      · subst hc
        have hcount : attrCategoryCount (categoryOf lh.option)
            (Attr.loopHint lh :: rest) =
            attrCategoryCount (categoryOf lh.option) rest + 1 := by
          simp [attrCategoryCount, List.countP_cons, attrCat]
        have hget : (compatStep s lh).1.get (categoryOf lh.option) =
            (stepCatState (categoryOf lh.option)
              (s.get (categoryOf lh.option)) lh).1 := by
          rw [compatStep_fst, HintState.get_set_self]
        have hne2 : catEmpty
            ((compatStep s lh).1.get (categoryOf lh.option)) = false := by
          rw [hget]
          exact stepCatState_fst_nonempty _ _ _
        rw [hne2] at ih2
        simp only [Bool.false_eq_true, if_false, Nat.sub_zero] at ih2
        rw [hcount]
        by_cases he : catEmpty (s.get (categoryOf lh.option)) = true
        · have hnil := (stepCatState_of_empty (categoryOf lh.option)
            (s.get (categoryOf lh.option)) lh he).1
          rw [compatStep_snd, hnil, if_pos he]
          simp only [List.countP_nil]
          omega
        · have hstep1 : List.countP
              (compatDiagP dup (categoryOf lh.option))
              (compatStep s lh).2 ≤ 1 := by
            rw [compatStep_snd]
            exact stepCatState_count_le_one _ _ _ _ _
          rw [if_neg he]
          omega
      · have hZ : List.countP (compatDiagP dup c) (compatStep s lh).2 = 0 := by
          rw [compatStep_snd]
          exact stepCatState_diag_cat (categoryOf lh.option)
            (s.get (categoryOf lh.option)) lh rfl (hwf _) dup c hc
        have hget : (compatStep s lh).1.get c = s.get c := by
          rw [compatStep_fst, HintState.get_set_ne _ _ _ _ hc]
        have hcount : attrCategoryCount c (Attr.loopHint lh :: rest) =
            attrCategoryCount c rest := by
          have hne3 : categoryOf lh.option ≠ c := Ne.symm hc
          simp [attrCategoryCount, List.countP_cons, attrCat, hne3]
        rw [hcount, hZ]
        rw [hget] at ih2
        omega

/-- Claim C2 as amended: for a statement whose attribute list carries at most
two loop hints of a given category, the compatibility checker emits at most
one duplicate diagnostic and at most one incompatibility diagnostic for that
category. (With three or more hints of one category this bound fails: the
incompatibility test runs again after every update, and every hint after the
first of its form adds a duplicate diagnostic, so the checker can emit up to
one diagnostic of each kind per hint beyond the first of the category.) -/
theorem compat_diag_bound_per_category (attrs : List Attr) (c : Category)
    (h : attrCategoryCount c attrs ≤ 2) :
    List.countP (compatDiagP true c)
      (CheckForIncompatibleAttributes attrs) ≤ 1 ∧
    List.countP (compatDiagP false c)
      (CheckForIncompatibleAttributes attrs) ≤ 1 := by
  have he : catEmpty (initialHintState.get c) = true := by
    cases c <;> rfl
  have h1 := checkGo_count_le true c attrs initialHintState stateWF_initial
  have h2 := checkGo_count_le false c attrs initialHintState stateWF_initial
  rw [he] at h1 h2
  simp only [if_true] at h1 h2
  exact ⟨by rw [CheckForIncompatibleAttributes]; omega,
    by rw [CheckForIncompatibleAttributes]; omega⟩

theorem compat_diag_bound_per_category_witness :
    attrCategoryCount Category.Vectorize
      [Attr.loopHint
        ⟨Spelling.Pragma_clang_loop, OptionType.Vectorize, 0, ⟨0, 1⟩⟩,
       Attr.loopHint
        ⟨Spelling.Pragma_clang_loop, OptionType.VectorizeWidth, 8,
          ⟨2, 3⟩⟩] ≤ 2 ∧
    (List.countP (compatDiagP true Category.Vectorize)
      (CheckForIncompatibleAttributes
        [Attr.loopHint
          ⟨Spelling.Pragma_clang_loop, OptionType.Vectorize, 0, ⟨0, 1⟩⟩,
         Attr.loopHint
          ⟨Spelling.Pragma_clang_loop, OptionType.VectorizeWidth, 8,
            ⟨2, 3⟩⟩]) ≤ 1 ∧
     List.countP (compatDiagP false Category.Vectorize)
      (CheckForIncompatibleAttributes
        [Attr.loopHint
          ⟨Spelling.Pragma_clang_loop, OptionType.Vectorize, 0, ⟨0, 1⟩⟩,
         Attr.loopHint
          ⟨Spelling.Pragma_clang_loop, OptionType.VectorizeWidth, 8,
            ⟨2, 3⟩⟩]) ≤ 1) :=
  ⟨by decide,
   compat_diag_bound_per_category
    [Attr.loopHint
      ⟨Spelling.Pragma_clang_loop, OptionType.Vectorize, 0, ⟨0, 1⟩⟩,
     Attr.loopHint
      ⟨Spelling.Pragma_clang_loop, OptionType.VectorizeWidth, 8, ⟨2, 3⟩⟩]
    Category.Vectorize (by decide)⟩
